import Mathlib

/-!
Shallow embedding of `src/app_parcelamento.py` (a Streamlit batch classifier for
fiscal-report PDFs) and proofs about the claims of its specification.

Modelling conventions:
* A PDF byte blob is modelled by `PDFFile`: either `readable pages` (the list of
  pages; each page's extracted text is `Option (List Char)`, `none` standing for
  `page.extract_text()` returning `None`) or `corrupt` (any byte blob on which
  the PDF readers raise, i.e. a `DocumentReadError` in the spec's vocabulary).
* Python strings are `List Char`.  Python's `str.find`, slices, `in`,
  `str.strip`, `str.lower` and the one regular expression used by the program
  are modelled character by character below.  Unicode-only details of
  Python's `\s`, `\d`, `str.lower` beyond their ASCII behaviour are not
  modelled; no claim depends on them.
* The thread pool of `processamento` completes futures in an arbitrary order;
  the aggregation loop appends to `all_results` / `matched_files` /
  `unmatched_files` in completion order.  `processEntries` processes an
  explicit list of qualifying entries sequentially; all theorems below are
  proved for every such list, hence for every completion order.
-/

/-- A PDF byte blob: either readable with the given pages, or bytes on which the
PDF libraries raise (spec: `DocumentReadError`). -/
inductive PDFFile
  | readable (pages : List (Option (List Char)))
  | corrupt
deriving DecidableEq

/-- Modelled from the spec: `DocumentReadError` is raised exactly on
unreadable/corrupt PDF bytes (`PDFFile.corrupt`); the source raises library
exceptions from `PyPDF2`/`pdfplumber` there. -/
def raisesDocReadError : PDFFile → Bool
  | .corrupt => true
  | .readable _ => false

/-- Python's `\s` character class (ASCII part), also the set stripped by
`str.strip()`. -/
def isPySpace (c : Char) : Bool :=
  c = ' ' || c = '\t' || c = '\n' || c = '\r' || c = '\x0b' || c = '\x0c'

/-- `str.strip()`: drop whitespace from both ends. -/
def pyStrip (cs : List Char) : List Char :=
  ((cs.dropWhile isPySpace).reverse.dropWhile isPySpace).reverse

/-- `str.lower()` (ASCII case folding). -/
def pyLower (cs : List Char) : List Char := cs.map Char.toLower

/-- `str.find`: index of the first occurrence of `pat` in `text`
(`none` models Python's `-1`). -/
def strFind : List Char → List Char → Option Nat
  | [], pat => if pat.isPrefixOf [] then some 0 else none
  | c :: rest, pat =>
    if pat.isPrefixOf (c :: rest) then some 0
    else (strFind rest pat).map (· + 1)

/-- Python's substring test `pat in text`. -/
def pyContains (text pat : List Char) : Bool := (strFind text pat).isSome

/-- Match a literal string at the head of the input, returning the rest. -/
def expectLit : List Char → List Char → Option (List Char)
  | [], cs => some cs
  | _ :: _, [] => none
  | l :: ls, c :: cs => if c = l then expectLit ls cs else none

/-- Match exactly `n` digits (`\d{n}`) at the head of the input. -/
def expectDigits : Nat → List Char → Option (List Char)
  | 0, cs => some cs
  | _ + 1, [] => none
  | n + 1, c :: cs => if c.isDigit then expectDigits n cs else none

/-- The tail `\s*(.+)` of the regex, with Python's greedy-backtracking
semantics, returning the text captured by `(.+)`.

Greedy `\s*` first consumes the maximal whitespace prefix.  If anything
remains, its first character is not whitespace, hence not a newline, so `.+`
matches and captures greedily up to the next newline or the end.  If nothing
remains (the whole input is whitespace), the engine backtracks `\s*` one
character at a time; the first position at which `.` can match is the last
non-newline character of the input, and `.+` then stops immediately (the
following character, if any, is a newline), capturing that single character.
If the input consists only of newlines (or is empty) the match fails. -/
def matchTail (cs : List Char) : Option (List Char) :=
  let rest := cs.dropWhile isPySpace
  match rest with
  | _ :: _ => some (rest.takeWhile (· != '\n'))
  | [] =>
    match cs.reverse.find? (· != '\n') with
    | some c => some [c]
    | none => none

/-- Match the regex `CNPJ:\s*(\d\x7b2\x7d\.\d\x7b3\x7d\.\d\x7b3\x7d)\s*-\s*(.+)`
at the head of the input, returning the text captured by group 2.

Each `\s*` except the last is followed by a character (`\d` or `-`) that is
never whitespace, so greedy maximal munch needs no backtracking there; the
final `\s*(.+)` is handled by `matchTail`. -/
def matchCNPJAt (cs : List Char) : Option (List Char) := do
  let cs ← expectLit ("CNPJ:".data) cs
  let cs := cs.dropWhile isPySpace
  let cs ← expectDigits 2 cs
  let cs ← expectLit (['.']) cs
  let cs ← expectDigits 3 cs
  let cs ← expectLit (['.']) cs
  let cs ← expectDigits 3 cs
  let cs := cs.dropWhile isPySpace
  let cs ← expectLit (['-']) cs
  matchTail cs

/-- `re.search` of the CNPJ pattern: try the pattern at each position, left to
right, returning group 2 of the first (leftmost) match. -/
def searchCNPJ : List Char → Option (List Char)
  | [] => none
  | c :: cs =>
    match matchCNPJAt (c :: cs) with
    | some g => some g
    | none => searchCNPJ cs

/-- Page-level body of `extract_text_from_bytes` (source lines 16-22) and of the
inlined copy in `process_pdf` (lines 63-67): concatenate every page's text (or
`""`), each followed by a newline. -/
def extract_text : List (Option (List Char)) → List Char
  | [] => []
  | p :: ps => p.getD [] ++ '\n' :: extract_text ps

/-- The page loop shared by `extract_company_name_from_bytes` (lines 29-36) and
the inlined copy in `process_pdf` (lines 71-77): on the first page whose text
matches the CNPJ pattern, return group 2 stripped; the remaining pages are not
consulted. -/
def company_from_pages : List (Option (List Char)) → Option (List Char)
  | [] => none
  | p :: ps =>
    match searchCNPJ (p.getD []) with
    | some g => some (pyStrip g)
    | none => company_from_pages ps

/-- `extract_company_name_from_bytes` restricted to readable pages: only the
first two pages (`pdf.pages[:2]`) are searched. -/
def extract_company_name (pages : List (Option (List Char))) : Option (List Char) :=
  company_from_pages (pages.take 2)

def rfTitle : List Char := "Diagnóstico Fiscal na Receita Federal".data

def pgfnTitle : List Char :=
  "Diagnóstico Fiscal na Procuradoria-Geral da Fazenda Nacional".data

/-- `rf_section` of `analyze_text` (line 44):
`text[rf_start:pgfn_start] if rf_start != -1 and pgfn_start != -1 else ""`. -/
def rf_section (text : List Char) : List Char :=
  match strFind text rfTitle, strFind text pgfnTitle with
  | some a, some b => (text.take b).drop a
  | _, _ => []

/-- `pgfn_section` of `analyze_text` (line 45):
`text[pgfn_start:] if pgfn_start != -1 else ""`. -/
def pgfn_section (text : List Char) : List Char :=
  match strFind text pgfnTitle with
  | some b => text.drop b
  | none => []

/-- `analyze_text` (source lines 39-53); `process_pdf` inlines the identical
logic at lines 79-95.  The two reassignments `rf_parc = False` /
`pgfn_parc = False` inside the secondary checks are kept exactly as written. -/
def analyze_text (text : List Char) : Bool × Bool :=
  let rfS := rf_section text
  let pgS := pgfn_section text
  let rf_parc := pyContains rfS ("EM PARCELAMENTO".data)
  let rf_parc :=
    if !rf_parc && pyContains rfS ("BASE INDISPONÍVEL".data)
        && pyContains rfS ("Parcelamento".data) then false else rf_parc
  let pgfn_parc := pyContains pgS ("Pendência - Parcelamento".data)
  let pgfn_parc :=
    if !pgfn_parc
        && pyContains pgS ("Não foram detectadas pendências/exigibilidades suspensas".data)
      then false else pgfn_parc
  (rf_parc, pgfn_parc)

/-- Second definition, written from the spec's words, for the refinement claim:
the primary-marker-only classifier, with the secondary checks removed. -/
def classify_primary (text : List Char) : Bool × Bool :=
  (pyContains (rf_section text) ("EM PARCELAMENTO".data),
   pyContains (pgfn_section text) ("Pendência - Parcelamento".data))

/-- `process_pdf` (source lines 56-100): extract the full text, the company
name from the first two pages, and the two installment flags; every exception
(in the model: reading a corrupt file) is caught and turned into
`(None, False, False)`.  The `st.cache_data` memoization of a pure function is
not modelled. -/
def process_pdf : PDFFile → Option (List Char) × Bool × Bool
  | .corrupt => (none, false, false)
  | .readable pages =>
    let text := extract_text pages
    let empresa := extract_company_name pages
    let (rf_parc, pgfn_parc) := analyze_text text
    (empresa, rf_parc, pgfn_parc)

/-- One archive entry: its name in the zip and its byte blob. -/
structure Entry where
  name : List Char
  file : PDFFile
deriving DecidableEq

/-- `info.filename.lower().endswith('.pdf')` (line 174). -/
def isPdfName (name : List Char) : Bool :=
  (".pdf".data).isSuffixOf (pyLower name)

/-- One classification record, an element of `all_results` (lines 188-193). -/
structure Result where
  empresa : List Char
  rf : Bool
  pgfn : Bool
  filename : List Char
deriving DecidableEq

/-- The three accumulators of the aggregation loop (lines 171-173). -/
structure BatchResult where
  all_results : List Result
  matched_files : List (List Char × PDFFile)
  unmatched_files : List (List Char × PDFFile)
deriving DecidableEq

/-- The aggregation loop of `processamento` (lines 183-203) over the qualifying
entries in completion order: `if empresa:` (truthy, i.e. not `None` and not
empty) appends a record and `(empresa + ".pdf", bytes)` to `matched_files`,
otherwise appends `(filename, bytes)` to `unmatched_files`.  The loop appends
at the end; here the head entry's contribution is consed in front of the rest,
which yields the same lists. -/
def processEntries : List Entry → BatchResult
  | [] => ⟨[], [], []⟩
  | e :: es =>
    let r := processEntries es
    match process_pdf e.file with
    | (some empresa, rf_parc, pgfn_parc) =>
      if empresa.isEmpty then
        ⟨r.all_results, r.matched_files, (e.name, e.file) :: r.unmatched_files⟩
      else
        ⟨⟨empresa, rf_parc, pgfn_parc, e.name⟩ :: r.all_results,
         (empresa ++ (".pdf".data), e.file) :: r.matched_files,
         r.unmatched_files⟩
    | (none, _, _) =>
      ⟨r.all_results, r.matched_files, (e.name, e.file) :: r.unmatched_files⟩

/-- `processamento` (lines 148-245), reduced to its pipeline content: filter the
archive to `.pdf` entries (line 174) and aggregate their processing results. -/
def processamento (entries : List Entry) : BatchResult :=
  processEntries (entries.filter (fun e => isPdfName e.name))

/-- The output archive (lines 233-238): matched files under `renomeados/`,
unmatched files under `nao_encontrados/`. -/
def outputArchive (b : BatchResult) : List (List Char × PDFFile) :=
  b.matched_files.map (fun p => ("renomeados/".data ++ p.1, p.2))
    ++ b.unmatched_files.map (fun p => ("nao_encontrados/".data ++ p.1, p.2))

/-- `filter_results` (source lines 136-146). -/
def filter_results (results : List Result) (search_terms : List (List Char)) :
    List Result :=
  if search_terms.isEmpty then results
  else results.filter (fun r =>
    search_terms.any (fun t => pyContains (pyLower r.empresa) (pyLower t)))

example : searchCNPJ ("xx CNPJ: 12.345.678 - ACME LTDA\nmore".data)
    = some ("ACME LTDA".data) := by decide

example : analyze_text ("nothing here".data) = (false, false) := by decide

/-! ### Lemmas about `strFind` and `pyContains` -/

lemma strFind_pos (text pat : List Char) (h : pat.isPrefixOf text = true) :
    strFind text pat = some 0 := by
  cases text <;> simp [strFind, h]

lemma strFind_cons_neg (c : Char) (cs pat : List Char)
    (h : ¬pat.isPrefixOf (c :: cs) = true) :
    strFind (c :: cs) pat = (strFind cs pat).map (· + 1) := by
  simp [strFind, h]

lemma strFind_append (a pat b : List Char) :
    ∃ j, strFind (a ++ (pat ++ b)) pat = some j ∧ j ≤ a.length := by
  induction a with
  | nil =>
    refine ⟨0, ?_, Nat.le_refl 0⟩
    exact strFind_pos _ _ (List.isPrefixOf_iff_prefix.mpr (List.prefix_append pat b))
  | cons c a ih =>
    by_cases hp : pat.isPrefixOf (c :: (a ++ (pat ++ b))) = true
    · exact ⟨0, strFind_pos _ _ hp, Nat.zero_le _⟩
    · obtain ⟨j, hj, hle⟩ := ih
      refine ⟨j + 1, ?_, Nat.succ_le_succ hle⟩
      rw [List.cons_append, strFind_cons_neg _ _ _ hp, hj]
      rfl

lemma pyContains_append (a pat b : List Char) :
    pyContains (a ++ (pat ++ b)) pat = true := by
  obtain ⟨j, hj, _⟩ := strFind_append a pat b
  simp [pyContains, hj]

lemma pyContains_iff_substring (text pat : List Char) :
    pyContains text pat = true ↔ pat <:+: text := by
  induction text with
  | nil =>
    rw [List.infix_nil]
    cases pat with
    | nil => simp [pyContains, strFind, List.isPrefixOf]
    | cons c cs => simp [pyContains, strFind, List.isPrefixOf]
  | cons c cs ih =>
    rw [List.infix_cons_iff]
    by_cases hp : pat.isPrefixOf (c :: cs) = true
    · simp only [pyContains, strFind_pos _ _ hp, Option.isSome_some, true_iff]
      exact Or.inl (List.isPrefixOf_iff_prefix.mp hp)
    · rw [show pyContains (c :: cs) pat = (strFind cs pat).isSome by
        simp [pyContains, strFind_cons_neg _ _ _ hp, Option.isSome_map']]
      rw [show (pyContains cs pat = true) ↔ ((strFind cs pat).isSome = true) from Iff.rfl] at ih
      rw [ih]
      constructor
      · exact Or.inr
      · rintro (h | h)
        · exact absurd (List.isPrefixOf_iff_prefix.mpr h) (by simpa using hp)
        · exact h

lemma pyContains_nil (pat : List Char) (h : pat ≠ []) : pyContains [] pat = false := by
  cases pat with
  | nil => exact absurd rfl h
  | cons c cs => simp [pyContains, strFind, List.isPrefixOf]

/-- C3: the secondary checks in the classifier (the "BASE INDISPONÍVEL" plus
"Parcelamento" check on the RF section and the "Não foram detectadas
pendências/exigibilidades suspensas" check on the PGFN section) never change
the outcome: for every input text, `analyze_text` returns exactly the pair
("EM PARCELAMENTO" occurs in the RF section, "Pendência - Parcelamento" occurs
in the PGFN section), i.e. the full classifier equals the primary-marker-only
classifier. -/
theorem analyze_text_eq_classify_primary (text : List Char) :
    analyze_text text = classify_primary text := by
  simp only [analyze_text, classify_primary]
  cases h1 : pyContains (rf_section text) ("EM PARCELAMENTO".data) <;>
    cases h2 : pyContains (pgfn_section text) ("Pendência - Parcelamento".data) <;>
      simp [h1, h2]

lemma rf_section_nil_of_le (text : List Char) (a b : Nat)
    (ha : strFind text rfTitle = some a) (hb : strFind text pgfnTitle = some b)
    (hba : b ≤ a) : rf_section text = [] := by
  simp only [rf_section, ha, hb]
  exact List.drop_eq_nil_of_le (le_trans (List.length_take_le b text) hba)

lemma analyze_fst_of_rf_nil (text : List Char) (h : rf_section text = []) :
    (analyze_text text).1 = false := by
  have e1 : pyContains [] ("EM PARCELAMENTO".data) = false := by decide
  have e2 : pyContains [] ("BASE INDISPONÍVEL".data) = false := by decide
  have e3 : pyContains [] ("Parcelamento".data) = false := by decide
  simp [analyze_text, h, e1, e2, e3]

lemma analyze_snd_of_pgfn_nil (text : List Char) (h : pgfn_section text = []) :
    (analyze_text text).2 = false := by
  have e4 : pyContains [] ("Pendência - Parcelamento".data) = false := by decide
  have e5 : pyContains []
      ("Não foram detectadas pendências/exigibilidades suspensas".data) = false := by decide
  simp [analyze_text, h, e4, e5]

/-- C4: RF classification is attempted only when both section headers occur and
the first occurrence of the RF header precedes the first occurrence of the
PGFN header; if PGFN precedes RF (`b ≤ a` on first-occurrence indices) or
either header is missing, the RF section is empty and the RF flag is false,
and if the text contains neither header then `analyze_text` returns
`(false, false)`. -/
theorem rf_requires_ordered_headers (text : List Char) :
    (∀ a b, strFind text rfTitle = some a → strFind text pgfnTitle = some b →
      b ≤ a → rf_section text = [] ∧ (analyze_text text).1 = false)
  ∧ ((strFind text rfTitle = none ∨ strFind text pgfnTitle = none) →
      rf_section text = [] ∧ (analyze_text text).1 = false)
  ∧ (strFind text rfTitle = none → strFind text pgfnTitle = none →
      analyze_text text = (false, false)) := by
  refine ⟨?_, ?_, ?_⟩
  · intro a b ha hb hba
    have hsec := rf_section_nil_of_le text a b ha hb hba
    exact ⟨hsec, analyze_fst_of_rf_nil text hsec⟩
  · intro h
    have hsec : rf_section text = [] := by
      rcases h with h | h
      · simp [rf_section, h]
      · rcases hrf : strFind text rfTitle with _ | a <;> simp [rf_section, hrf, h]
    exact ⟨hsec, analyze_fst_of_rf_nil text hsec⟩
  · intro h1 h2
    have hsec : rf_section text = [] := by simp [rf_section, h1]
    have hsec2 : pgfn_section text = [] := by simp [pgfn_section, h2]
    have ha := analyze_fst_of_rf_nil text hsec
    have hb := analyze_snd_of_pgfn_nil text hsec2
    have : analyze_text text = ((analyze_text text).1, (analyze_text text).2) := rfl
    rw [this, ha, hb]

/-- Witness for `rf_requires_ordered_headers`: on `pgfnTitle ++ rfTitle` the
PGFN header comes first, so the RF section is empty and the RF flag is false;
on a text with no headers the classifier returns `(false, false)`. -/
theorem rf_requires_ordered_headers_witness :
    (rf_section (pgfnTitle ++ rfTitle) = []
      ∧ (analyze_text (pgfnTitle ++ rfTitle)).1 = false)
  ∧ analyze_text ("sem cabeçalhos".data) = (false, false) :=
  ⟨(rf_requires_ordered_headers (pgfnTitle ++ rfTitle)).1 pgfnTitle.length 0
      (by decide) (by decide) (by decide),
   (rf_requires_ordered_headers ("sem cabeçalhos".data)).2.2 (by decide) (by decide)⟩

set_option maxRecDepth 4000 in
/-- C5 counterexample: a text of the claimed form — the four literals occur at
increasing positions, with filler `s0 = pgfnTitle` before the RF header and all
other fillers empty — on which `analyze_text` returns `(false, true)`, not
`(true, true)`: the first occurrence of the PGFN header precedes the RF header,
so the RF section is empty. -/
theorem four_markers_in_order_cex :
    analyze_text (pgfnTitle ++ rfTitle ++ ("EM PARCELAMENTO".data)
      ++ pgfnTitle ++ ("Pendência - Parcelamento".data)) = (false, true) := by decide

/-- C5 (amended): for every text of the form
`s0 ++ rfTitle ++ s1 ++ "EM PARCELAMENTO" ++ s2 ++ pgfnTitle ++ s3 ++
"Pendência - Parcelamento" ++ s4` in which, additionally, the shown occurrence
of the PGFN header is its first occurrence in the text, `analyze_text` returns
`(true, true)`. -/
theorem four_markers_first_pgfn_classify_true (s0 s1 s2 s3 s4 : List Char)
    (h : strFind
        (s0 ++ rfTitle ++ s1 ++ ("EM PARCELAMENTO".data) ++ s2
          ++ pgfnTitle ++ s3 ++ ("Pendência - Parcelamento".data) ++ s4)
        pgfnTitle
      = some (s0 ++ rfTitle ++ s1 ++ ("EM PARCELAMENTO".data) ++ s2).length) :
    analyze_text
        (s0 ++ rfTitle ++ s1 ++ ("EM PARCELAMENTO".data) ++ s2
          ++ pgfnTitle ++ s3 ++ ("Pendência - Parcelamento".data) ++ s4)
      = (true, true) := by
  have hassoc1 :
      s0 ++ rfTitle ++ s1 ++ ("EM PARCELAMENTO".data) ++ s2
          ++ pgfnTitle ++ s3 ++ ("Pendência - Parcelamento".data) ++ s4
        = (s0 ++ rfTitle ++ s1 ++ ("EM PARCELAMENTO".data) ++ s2)
            ++ (pgfnTitle ++ (s3 ++ (("Pendência - Parcelamento".data) ++ s4))) := by
    simp [List.append_assoc]
  obtain ⟨j, hj, hjle⟩ :
      ∃ j, strFind
          (s0 ++ rfTitle ++ s1 ++ ("EM PARCELAMENTO".data) ++ s2
            ++ pgfnTitle ++ s3 ++ ("Pendência - Parcelamento".data) ++ s4) rfTitle
        = some j ∧ j ≤ s0.length := by
    obtain ⟨j, hj, hle⟩ := strFind_append s0 rfTitle
      (s1 ++ (("EM PARCELAMENTO".data)
        ++ (s2 ++ (pgfnTitle ++ (s3 ++ (("Pendência - Parcelamento".data) ++ s4))))))
    refine ⟨j, ?_, hle⟩
    rw [show s0 ++ rfTitle ++ s1 ++ ("EM PARCELAMENTO".data) ++ s2
          ++ pgfnTitle ++ s3 ++ ("Pendência - Parcelamento".data) ++ s4
        = s0 ++ (rfTitle ++ (s1 ++ (("EM PARCELAMENTO".data)
            ++ (s2 ++ (pgfnTitle ++ (s3 ++ (("Pendência - Parcelamento".data) ++ s4)))))))
      by simp [List.append_assoc]]
    exact hj
  have hpg_sec : pgfn_section
      (s0 ++ rfTitle ++ s1 ++ ("EM PARCELAMENTO".data) ++ s2
        ++ pgfnTitle ++ s3 ++ ("Pendência - Parcelamento".data) ++ s4)
      = pgfnTitle ++ (s3 ++ (("Pendência - Parcelamento".data) ++ s4)) := by
    simp only [pgfn_section, h]
    rw [hassoc1, List.drop_left]
  have hc2 : pyContains (pgfn_section
      (s0 ++ rfTitle ++ s1 ++ ("EM PARCELAMENTO".data) ++ s2
        ++ pgfnTitle ++ s3 ++ ("Pendência - Parcelamento".data) ++ s4))
      ("Pendência - Parcelamento".data) = true := by
    rw [hpg_sec, show pgfnTitle ++ (s3 ++ (("Pendência - Parcelamento".data) ++ s4))
        = (pgfnTitle ++ s3) ++ (("Pendência - Parcelamento".data) ++ s4)
      by simp [List.append_assoc]]
    exact pyContains_append _ _ _
  have hrf_sec : rf_section
      (s0 ++ rfTitle ++ s1 ++ ("EM PARCELAMENTO".data) ++ s2
        ++ pgfnTitle ++ s3 ++ ("Pendência - Parcelamento".data) ++ s4)
      = (s0.drop j ++ ((rfTitle ++ s1))) ++ (("EM PARCELAMENTO".data) ++ s2) := by
    simp only [rf_section, hj, h]
    rw [hassoc1, List.take_left]
    rw [show (s0 ++ rfTitle ++ s1 ++ ("EM PARCELAMENTO".data) ++ s2 : List Char)
        = s0 ++ ((rfTitle ++ s1) ++ (("EM PARCELAMENTO".data) ++ s2))
      by simp [List.append_assoc]]
    rw [List.drop_append_of_le_length hjle]
    simp [List.append_assoc]
  have hc1 : pyContains (rf_section
      (s0 ++ rfTitle ++ s1 ++ ("EM PARCELAMENTO".data) ++ s2
        ++ pgfnTitle ++ s3 ++ ("Pendência - Parcelamento".data) ++ s4))
      ("EM PARCELAMENTO".data) = true := by
    rw [hrf_sec]
    exact pyContains_append _ _ _
  simp only [analyze_text]
  rw [hc1, hc2]
  simp

/-- Witness for `four_markers_first_pgfn_classify_true` with all fillers empty. -/
theorem four_markers_first_pgfn_classify_true_witness :
    analyze_text
        (([] : List Char) ++ rfTitle ++ ([] : List Char) ++ ("EM PARCELAMENTO".data)
          ++ ([] : List Char) ++ pgfnTitle ++ ([] : List Char)
          ++ ("Pendência - Parcelamento".data) ++ ([] : List Char))
      = (true, true) :=
  four_markers_first_pgfn_classify_true [] [] [] [] [] (by decide)

/-- C6: `extract_company_name` searches only the first two pages, page by page;
the first matching page determines the result — a match on page one gives the
same result whatever the later pages are; if the first page fails and the
second matches, the second page's captured group (stripped) is returned; if no
page among the first two matches, the result is absent; and on header text
containing `"CNPJ: 12.345.678 - ACME LTDA"` followed by a newline it returns
`"ACME LTDA"`. -/
theorem extract_company_name_spec :
    (∀ pages, extract_company_name pages = extract_company_name (pages.take 2))
  ∧ (∀ p rest g, searchCNPJ (p.getD []) = some g →
      extract_company_name (p :: rest) = some (pyStrip g))
  ∧ (∀ p₁ p₂ rest g, searchCNPJ (p₁.getD []) = none → searchCNPJ (p₂.getD []) = some g →
      extract_company_name (p₁ :: p₂ :: rest) = some (pyStrip g))
  ∧ (∀ pages, (∀ p ∈ pages.take 2, searchCNPJ (p.getD []) = none) →
      extract_company_name pages = none)
  ∧ extract_company_name
      [some ("Relatório\nCNPJ: 12.345.678 - ACME LTDA\nSituação Fiscal".data)]
      = some ("ACME LTDA".data) := by
  refine ⟨?_, ?_, ?_, ?_, ?_⟩
  · intro pages
    simp [extract_company_name, List.take_take]
  · intro p rest g h
    simp [extract_company_name, company_from_pages, h]
  · intro p₁ p₂ rest g h1 h2
    simp [extract_company_name, company_from_pages, h1, h2]
  · intro pages hall
    match pages with
    | [] => rfl
    | [p] =>
      have h := hall p (by simp)
      simp [extract_company_name, company_from_pages, h]
    | p :: q :: qs =>
      have h1 := hall p (by simp)
      have h2 := hall q (by simp)
      simp [extract_company_name, company_from_pages, h1, h2]
  · decide

/-- Witness for `extract_company_name_spec`: the first page has no CNPJ header,
the second does, and the second page's name is returned. -/
theorem extract_company_name_spec_witness :
    extract_company_name
      [some ("primeira página".data), some ("CNPJ: 98.765.432 - FOO BAR SA".data)]
      = some ("FOO BAR SA".data) := by
  have h := extract_company_name_spec.2.2.1
    (some ("primeira página".data)) (some ("CNPJ: 98.765.432 - FOO BAR SA".data))
    [] ("FOO BAR SA".data) (by decide) (by decide)
  rw [h]
  decide

/-- C7: a record passes `filter_results` iff it is among the input records and
either the term list is empty or its case-folded company name contains some
case-folded term as a substring; with an empty term list the records are
returned unchanged (identity law). -/
theorem filter_results_spec (results : List Result) (terms : List (List Char)) :
    filter_results results [] = results
  ∧ (∀ r, r ∈ filter_results results terms ↔
      r ∈ results ∧ (terms = [] ∨ ∃ t ∈ terms, pyLower t <:+: pyLower r.empresa)) := by
  constructor
  · simp [filter_results]
  · intro r
    match terms with
    | [] => simp [filter_results]
    | t :: ts =>
      simp only [filter_results, List.isEmpty_cons, Bool.false_eq_true, if_false]
      rw [List.mem_filter]
      simp only [List.any_eq_true]
      constructor
      · rintro ⟨hr, u, hu, hc⟩
        exact ⟨hr, Or.inr ⟨u, hu, (pyContains_iff_substring _ _).mp hc⟩⟩
      · rintro ⟨hr, h | ⟨u, hu, hc⟩⟩
        · exact absurd h (List.cons_ne_nil t ts)
        · exact ⟨hr, u, hu, (pyContains_iff_substring _ _).mpr hc⟩

/-! ### Lemmas about the aggregation loop -/

lemma processEntries_matched_map (es : List Entry) :
    (processEntries es).matched_files.map Prod.fst
      = (processEntries es).all_results.map (fun r => r.empresa ++ (".pdf".data)) := by
  induction es with
  | nil => rfl
  | cons e es ih =>
    rcases hp : process_pdf e.file with ⟨o, rf, pg⟩
    cases o with
    | none => simpa [processEntries, hp] using ih
    | some emp =>
      by_cases he : emp.isEmpty
      · simpa [processEntries, hp, he] using ih
      · simp [processEntries, hp, he, ih]

lemma processEntries_length (es : List Entry) :
    (processEntries es).all_results.length
      + (processEntries es).unmatched_files.length = es.length := by
  induction es with
  | nil => rfl
  | cons e es ih =>
    rcases hp : process_pdf e.file with ⟨o, rf, pg⟩
    cases o with
    | none =>
      simp only [processEntries, hp, List.length_cons, List.length]
      omega
    | some emp =>
      by_cases he : emp.isEmpty <;>
        simp only [processEntries, hp, he, if_true, if_false, Bool.false_eq_true,
          List.length_cons, List.length] <;> omega

lemma processEntries_names_perm (es : List Entry) :
    List.Perm (es.map Entry.name)
      ((processEntries es).all_results.map Result.filename
        ++ (processEntries es).unmatched_files.map Prod.fst) := by
  induction es with
  | nil => simp [processEntries]
  | cons e es ih =>
    rcases hp : process_pdf e.file with ⟨o, rf, pg⟩
    cases o with
    | none =>
      simp only [processEntries, hp, List.map_cons]
      exact (ih.cons e.name).trans List.perm_middle.symm
    | some emp =>
      by_cases he : emp.isEmpty
      · simp only [processEntries, hp, he, if_true, List.map_cons]
        exact (ih.cons e.name).trans List.perm_middle.symm
      · simp only [processEntries, hp, he, Bool.false_eq_true, if_false, List.map_cons,
          List.cons_append]
        exact ih.cons e.name

lemma mem_unmatched_of_none (es : List Entry) (e : Entry) (he : e ∈ es)
    (h : (process_pdf e.file).1 = none) :
    (e.name, e.file) ∈ (processEntries es).unmatched_files := by
  induction es with
  | nil => cases he
  | cons f es ih =>
    rcases List.mem_cons.mp he with hef | hmem
    · subst hef
      rcases hp : process_pdf e.file with ⟨o, rf, pg⟩
      rw [hp] at h
      cases o with
      | some emp => exact absurd h (by simp)
      | none =>
        simp only [processEntries, hp]
        exact List.mem_cons_self _ _
    · have hrec := ih hmem
      rcases hp : process_pdf f.file with ⟨o, rf, pg⟩
      cases o with
      | none =>
        simp only [processEntries, hp]
        exact List.mem_cons_of_mem _ hrec
      | some emp =>
        by_cases hemp : emp.isEmpty
        · simp only [processEntries, hp, hemp, if_true]
          exact List.mem_cons_of_mem _ hrec
        · simp only [processEntries, hp, hemp, Bool.false_eq_true, if_false]
          exact hrec

/-- An entry whose extraction result is falsy for the loop's `if empresa:` test
— `None`, or a name that strips to the empty string — lands in
`unmatched_files`. -/
lemma mem_unmatched_of_falsy (es : List Entry) (e : Entry) (he : e ∈ es)
    (h : ((process_pdf e.file).1.getD []).isEmpty = true) :
    (e.name, e.file) ∈ (processEntries es).unmatched_files := by
  induction es with
  | nil => cases he
  | cons f es ih =>
    rcases List.mem_cons.mp he with hef | hmem
    · subst hef
      rcases hp : process_pdf e.file with ⟨o, rf, pg⟩
      rw [hp] at h
      cases o with
      | none =>
        simp only [processEntries, hp]
        exact List.mem_cons_self _ _
      | some emp =>
        have hemp : emp.isEmpty = true := h
        simp only [processEntries, hp, hemp, if_true]
        exact List.mem_cons_self _ _
    · have hrec := ih hmem
      rcases hp : process_pdf f.file with ⟨o, rf, pg⟩
      cases o with
      | none =>
        simp only [processEntries, hp]
        exact List.mem_cons_of_mem _ hrec
      | some emp =>
        by_cases hemp : emp.isEmpty
        · simp only [processEntries, hp, hemp, if_true]
          exact List.mem_cons_of_mem _ hrec
        · simp only [processEntries, hp, hemp, Bool.false_eq_true, if_false]
          exact hrec

lemma records_nonempty_name (es : List Entry) (r : Result)
    (h : r ∈ (processEntries es).all_results) : r.empresa ≠ [] := by
  induction es with
  | nil => cases h
  | cons e es ih =>
    rcases hp : process_pdf e.file with ⟨o, rf, pg⟩
    cases o with
    | none =>
      simp only [processEntries, hp] at h
      exact ih h
    | some emp =>
      by_cases hemp : emp.isEmpty
      · simp only [processEntries, hp, hemp, if_true] at h
        exact ih h
      · simp only [processEntries, hp, hemp, Bool.false_eq_true, if_false] at h
        rcases List.mem_cons.mp h with hr | hr
        · subst hr
          intro hnil
          rw [show (⟨emp, rf, pg, e.name⟩ : Result).empresa = emp from rfl] at hnil
          subst hnil
          simp at hemp
        · exact ih hr

lemma countP_matched (es : List Entry) (n : List Char) (hn : n ≠ []) :
    (processEntries es).matched_files.countP
        (fun p => decide (p.1 = n ++ (".pdf".data)))
      = es.countP (fun e => decide ((process_pdf e.file).1 = some n)) := by
  induction es with
  | nil => rfl
  | cons e es ih =>
    rcases hp : process_pdf e.file with ⟨o, rf, pg⟩
    cases o with
    | none =>
      simp only [processEntries, hp, List.countP_cons, ih]
      simp
    | some emp =>
      by_cases hemp : emp.isEmpty
      · have hne : ¬((some emp : Option (List Char)) = some n) := by
          intro hh
          apply hn
          rw [← Option.some.inj hh]
          exact List.isEmpty_iff.mp hemp
        simp only [processEntries, hp, hemp, if_true, List.countP_cons, ih]
        simp [hne]
      · have hd : decide ((emp ++ (".pdf".data) : List Char) = n ++ (".pdf".data))
            = decide ((some emp : Option (List Char)) = some n) :=
          decide_eq_decide.mpr (by rw [List.append_left_inj]; simp)
        simp only [processEntries, hp, hemp, Bool.false_eq_true, if_false,
          List.countP_cons, ih, hd]

/-- C1 counterexample: an archive with a single qualifying entry whose bytes
raise `DocumentReadError`.  The loop routes it to `unmatched_files`
(`process_pdf` swallowed the exception and returned `None`), so
`|records| + |unmatched| = 1` while the claimed right-hand side
`qualifying - raised = 1 - 1 = 0`. -/
theorem docReadError_excluded_cex :
    ¬ ((processamento [⟨"bad.pdf".data, PDFFile.corrupt⟩]).all_results.length
        + (processamento [⟨"bad.pdf".data, PDFFile.corrupt⟩]).unmatched_files.length
      = ([(⟨"bad.pdf".data, PDFFile.corrupt⟩ : Entry)].filter
            (fun e => isPdfName e.name)).length
        - ([(⟨"bad.pdf".data, PDFFile.corrupt⟩ : Entry)].filter
            (fun e => isPdfName e.name && raisesDocReadError e.file)).length) := by
  decide

/-- C1 (amended): a qualifying `.pdf` entry that raises `DocumentReadError` is
caught inside `process_pdf` and routed to `unmatchedFiles` (it produces no
record and no matched file), so for every archive
`|records| + |unmatchedFiles|` equals the number of qualifying `.pdf` entries,
with no subtraction for entries that raised. -/
theorem records_plus_unmatched_eq_qualifying (entries : List Entry) :
    (processamento entries).all_results.length
        + (processamento entries).unmatched_files.length
      = (entries.filter (fun e => isPdfName e.name)).length
  ∧ (∀ e ∈ entries, isPdfName e.name = true → raisesDocReadError e.file = true →
      (e.name, e.file) ∈ (processamento entries).unmatched_files) := by
  constructor
  · exact processEntries_length _
  · intro e he hpdf hcor
    have hcorrupt : e.file = PDFFile.corrupt := by
      cases hf : e.file with
      | corrupt => rfl
      | readable pages => rw [hf] at hcor; simp [raisesDocReadError] at hcor
    apply mem_unmatched_of_none
    · exact List.mem_filter.mpr ⟨he, hpdf⟩
    · rw [hcorrupt]
      rfl

/-- Witness for `records_plus_unmatched_eq_qualifying` on a one-entry archive
whose only file raises `DocumentReadError`. -/
theorem records_plus_unmatched_eq_qualifying_witness :
    ((processamento [⟨"corrompido.pdf".data, PDFFile.corrupt⟩]).all_results.length
        + (processamento [⟨"corrompido.pdf".data, PDFFile.corrupt⟩]).unmatched_files.length
      = ([(⟨"corrompido.pdf".data, PDFFile.corrupt⟩ : Entry)].filter
          (fun e => isPdfName e.name)).length)
  ∧ ("corrompido.pdf".data, PDFFile.corrupt)
      ∈ (processamento [⟨"corrompido.pdf".data, PDFFile.corrupt⟩]).unmatched_files :=
  ⟨(records_plus_unmatched_eq_qualifying [⟨"corrompido.pdf".data, PDFFile.corrupt⟩]).1,
   (records_plus_unmatched_eq_qualifying [⟨"corrompido.pdf".data, PDFFile.corrupt⟩]).2
      ⟨"corrompido.pdf".data, PDFFile.corrupt⟩ (by decide) (by decide) (by decide)⟩

/-- C2: `matchedFiles` and `records` correspond 1:1 — the list of matched new
names equals the list of record company names each followed by ".pdf" (hence
same length and i-th correspondence) — and every qualifying `.pdf` entry goes
to exactly one of {records+matchedFiles, unmatchedFiles}: the multiset of
qualifying entry names is exactly the records' source names together with the
unmatched names. -/
theorem matched_records_correspondence (entries : List Entry) :
    (processamento entries).matched_files.map Prod.fst
      = (processamento entries).all_results.map (fun r => r.empresa ++ (".pdf".data))
  ∧ List.Perm ((entries.filter (fun e => isPdfName e.name)).map Entry.name)
      ((processamento entries).all_results.map Result.filename
        ++ (processamento entries).unmatched_files.map Prod.fst) :=
  ⟨processEntries_matched_map _, processEntries_names_perm _⟩

/-- C8: every record produced by a batch run has a non-empty company name, and
a qualifying file whose extracted name is absent (`none`) or trims to the
empty string produces no record and is routed to the unmatched bucket instead
(the extraction result is falsy for the loop's `if empresa:` test exactly when
`(process_pdf bytes).1.getD []` is empty). -/
theorem records_have_nonempty_company (entries : List Entry) :
    (∀ r ∈ (processamento entries).all_results, r.empresa ≠ [])
  ∧ (∀ e ∈ entries, isPdfName e.name = true →
      ((process_pdf e.file).1.getD []).isEmpty = true →
      (e.name, e.file) ∈ (processamento entries).unmatched_files) := by
  constructor
  · intro r hr
    exact records_nonempty_name _ r hr
  · intro e he hpdf hfalsy
    exact mem_unmatched_of_falsy _ e (List.mem_filter.mpr ⟨he, hpdf⟩) hfalsy

set_option maxRecDepth 8000 in
/-- Witness for `records_have_nonempty_company` on a three-entry archive: the
first file yields the record `⟨"ACME LTDA", false, false, "a.pdf"⟩` (non-empty
name), the second has no CNPJ header (absent name), the third has a CNPJ
header whose captured name strips to the empty string; both of the latter are
routed to `unmatched_files`. -/
theorem records_have_nonempty_company_witness :
    (⟨"ACME LTDA".data, false, false, "a.pdf".data⟩ : Result).empresa ≠ []
  ∧ ("semnome.pdf".data, PDFFile.readable [some ("relatório sem cabeçalho".data)])
      ∈ (processamento
          [⟨"a.pdf".data, PDFFile.readable [some ("CNPJ: 12.345.678 - ACME LTDA".data)]⟩,
           ⟨"semnome.pdf".data, PDFFile.readable [some ("relatório sem cabeçalho".data)]⟩,
           ⟨"vazio.pdf".data, PDFFile.readable [some ("CNPJ: 12.345.678 - ".data)]⟩]).unmatched_files
  ∧ ("vazio.pdf".data, PDFFile.readable [some ("CNPJ: 12.345.678 - ".data)])
      ∈ (processamento
          [⟨"a.pdf".data, PDFFile.readable [some ("CNPJ: 12.345.678 - ACME LTDA".data)]⟩,
           ⟨"semnome.pdf".data, PDFFile.readable [some ("relatório sem cabeçalho".data)]⟩,
           ⟨"vazio.pdf".data, PDFFile.readable [some ("CNPJ: 12.345.678 - ".data)]⟩]).unmatched_files :=
  ⟨(records_have_nonempty_company
      [⟨"a.pdf".data, PDFFile.readable [some ("CNPJ: 12.345.678 - ACME LTDA".data)]⟩,
       ⟨"semnome.pdf".data, PDFFile.readable [some ("relatório sem cabeçalho".data)]⟩,
       ⟨"vazio.pdf".data, PDFFile.readable [some ("CNPJ: 12.345.678 - ".data)]⟩]).1
      ⟨"ACME LTDA".data, false, false, "a.pdf".data⟩ (by decide),
   (records_have_nonempty_company
      [⟨"a.pdf".data, PDFFile.readable [some ("CNPJ: 12.345.678 - ACME LTDA".data)]⟩,
       ⟨"semnome.pdf".data, PDFFile.readable [some ("relatório sem cabeçalho".data)]⟩,
       ⟨"vazio.pdf".data, PDFFile.readable [some ("CNPJ: 12.345.678 - ".data)]⟩]).2
      ⟨"semnome.pdf".data, PDFFile.readable [some ("relatório sem cabeçalho".data)]⟩
      (by decide) (by decide) (by decide),
   (records_have_nonempty_company
      [⟨"a.pdf".data, PDFFile.readable [some ("CNPJ: 12.345.678 - ACME LTDA".data)]⟩,
       ⟨"semnome.pdf".data, PDFFile.readable [some ("relatório sem cabeçalho".data)]⟩,
       ⟨"vazio.pdf".data, PDFFile.readable [some ("CNPJ: 12.345.678 - ".data)]⟩]).2
      ⟨"vazio.pdf".data, PDFFile.readable [some ("CNPJ: 12.345.678 - ".data)]⟩
      (by decide) (by decide) (by decide)⟩

/-- C9: `process_pdf` is total — on bytes that raise (`PDFFile.corrupt`) it
catches the exception and returns `(none, false, false)` instead of
propagating — so the per-file exception branch of the aggregation loop never
fires for failures inside `process_pdf`, and a qualifying file that fails
processing is routed to the unmatched bucket. -/
theorem process_pdf_total_corrupt_to_unmatched (entries : List Entry) (e : Entry)
    (h1 : e ∈ entries) (h2 : isPdfName e.name = true) (h3 : e.file = PDFFile.corrupt) :
    process_pdf e.file = (none, false, false)
      ∧ (e.name, e.file) ∈ (processamento entries).unmatched_files := by
  constructor
  · rw [h3]
    rfl
  · apply mem_unmatched_of_none
    · exact List.mem_filter.mpr ⟨h1, h2⟩
    · rw [h3]
      rfl

/-- Witness for `process_pdf_total_corrupt_to_unmatched` on a one-entry archive. -/
theorem process_pdf_total_corrupt_to_unmatched_witness :
    process_pdf (⟨"ilegivel.pdf".data, PDFFile.corrupt⟩ : Entry).file
        = (none, false, false)
      ∧ ("ilegivel.pdf".data, PDFFile.corrupt)
          ∈ (processamento [⟨"ilegivel.pdf".data, PDFFile.corrupt⟩]).unmatched_files :=
  process_pdf_total_corrupt_to_unmatched
    [⟨"ilegivel.pdf".data, PDFFile.corrupt⟩] ⟨"ilegivel.pdf".data, PDFFile.corrupt⟩
    (by decide) (by decide) rfl

/-- C10: duplicate company names are not deduplicated: for every archive and
every non-empty name `n`, the number of `matchedFiles` entries named
`n + ".pdf"` equals the number of qualifying `.pdf` entries whose extraction
yields `n`, and the output archive contains exactly that many members at the
colliding path `renomeados/n.pdf` — two entries extracting the same name both
appear, with the identical new name and path. -/
theorem duplicate_names_collide (entries : List Entry) (n : List Char) (hn : n ≠ []) :
    (processamento entries).matched_files.countP
        (fun p => decide (p.1 = n ++ (".pdf".data)))
      = entries.countP
          (fun e => decide ((process_pdf e.file).1 = some n) && isPdfName e.name)
  ∧ (outputArchive (processamento entries)).countP
        (fun p => decide (p.1 = ("renomeados/".data) ++ (n ++ (".pdf".data))))
      = entries.countP
          (fun e => decide ((process_pdf e.file).1 = some n) && isPdfName e.name) := by
  have hq : entries.countP
        (fun e => decide ((process_pdf e.file).1 = some n) && isPdfName e.name)
      = (entries.filter (fun e => isPdfName e.name)).countP
          (fun e => decide ((process_pdf e.file).1 = some n)) :=
    (List.countP_filter _ _ _).symm
  constructor
  · rw [hq]
    exact countP_matched _ n hn
  · rw [hq]
    show (List.countP _ (List.map _ _ ++ List.map _ _)) = _
    rw [List.countP_append]
    have hren : ((processamento entries).matched_files.map
          (fun p => (("renomeados/".data) ++ p.1, p.2))).countP
          (fun p => decide (p.1 = ("renomeados/".data) ++ (n ++ (".pdf".data))))
        = (processamento entries).matched_files.countP
            (fun p => decide (p.1 = n ++ (".pdf".data))) := by
      rw [List.countP_map]
      apply List.countP_congr
      intro p hp
      simp only [Function.comp_apply, decide_eq_true_eq]
      exact ⟨fun hh => (List.append_right_inj ("renomeados/".data)).mp hh,
             fun hh => by rw [hh]⟩
    have hnao : ((processamento entries).unmatched_files.map
          (fun p => (("nao_encontrados/".data) ++ p.1, p.2))).countP
          (fun p => decide (p.1 = ("renomeados/".data) ++ (n ++ (".pdf".data)))) = 0 := by
      rw [List.countP_map]
      apply List.countP_eq_zero.mpr
      intro p hp
      simp only [Function.comp_apply, decide_eq_true_eq]
      intro hh
      have h1 : (['n'] : List Char) = ['r'] := congrArg (List.take 1) hh
      exact absurd h1 (by decide)
    rw [hren, hnao, Nat.add_zero]
    exact countP_matched _ n hn

set_option maxRecDepth 8000 in
/-- Witness for `duplicate_names_collide`: two distinct entries whose headers
both yield `"ACME SA"`; both counts evaluate to 2. -/
theorem duplicate_names_collide_witness :
    (processamento
        [⟨"x1.pdf".data, PDFFile.readable [some ("CNPJ: 11.222.333 - ACME SA".data)]⟩,
         ⟨"x2.pdf".data, PDFFile.readable [some ("CNPJ: 44.555.666 - ACME SA".data)]⟩]).matched_files.countP
        (fun p => decide (p.1 = ("ACME SA".data) ++ (".pdf".data))) = 2
  ∧ (outputArchive (processamento
        [⟨"x1.pdf".data, PDFFile.readable [some ("CNPJ: 11.222.333 - ACME SA".data)]⟩,
         ⟨"x2.pdf".data, PDFFile.readable [some ("CNPJ: 44.555.666 - ACME SA".data)]⟩])).countP
        (fun p => decide (p.1 = ("renomeados/".data) ++ (("ACME SA".data) ++ (".pdf".data)))) = 2 := by
  have h := duplicate_names_collide
    [⟨"x1.pdf".data, PDFFile.readable [some ("CNPJ: 11.222.333 - ACME SA".data)]⟩,
     ⟨"x2.pdf".data, PDFFile.readable [some ("CNPJ: 44.555.666 - ACME SA".data)]⟩]
    ("ACME SA".data) (by decide)
  refine ⟨?_, ?_⟩
  · rw [h.1]
    decide
  · rw [h.2]
    decide
